import Mathlib

/-!
Verification of the matcher-compilation and cache-resolution helpers of the
moment-timezone-data-webpack-plugin repository (file src/helpers.js).

The JavaScript source builds RegExp objects from pattern source strings.  We
embed a RegExp object as the pattern source string it was constructed from,
together with an executable model of the JavaScript regular-expression engine
restricted to the fragment of patterns that the source code generates:
alternations of backslash-escaped literal characters, the dot atom, the
question-mark quantifier, and the anchored wrapper produced by exactRegExp.
The engine model is a classical Brzozowski-derivative matcher driven by a
small parser of the pattern source.
-/

namespace Helpers

/-- Abstract syntax of the regular-expression fragment that the generated
pattern sources fall into. -/
inductive Reg : Type
  | void : Reg
  | eps : Reg
  | chr : Char → Reg
  | dot : Reg
  | alt : Reg → Reg → Reg
  | cat : Reg → Reg → Reg
  | opt : Reg → Reg
  deriving Repr, DecidableEq

/-- Whether a regular expression accepts the empty string. -/
def nullable : Reg → Bool
  | .void => false
  | .eps => true
  | .chr _ => false
  | .dot => false
  | .alt a b => nullable a || nullable b
  | .cat a b => nullable a && nullable b
  | .opt _ => true

/-- JavaScript line terminators, which the dot atom does not match. -/
def isLineTerm (c : Char) : Bool :=
  c = '\x0a' || c = '\x0d' || c = ' ' || c = ' '

/-- Brzozowski derivative of a regular expression with respect to one
character. -/
def deriv (r : Reg) (c : Char) : Reg :=
  match r with
  | .void => .void
  | .eps => .void
  | .chr a => if c = a then .eps else .void
  | .dot => if isLineTerm c then .void else .eps
  | .alt a b => .alt (deriv a c) (deriv b c)
  | .cat a b =>
    if nullable a then .alt (.cat (deriv a c) b) (deriv b c)
    else .cat (deriv a c) b
  | .opt a => deriv a c

/-- Full match of a character list against a regular expression, by repeated
derivatives. -/
def rmatch : Reg → List Char → Bool
  | r, [] => nullable r
  | r, c :: cs => rmatch (deriv r c) cs

/-- Whether some proper or improper prefix of the list matches. -/
def searchAt : Reg → List Char → Bool
  | r, [] => nullable r
  | r, c :: cs => nullable r || searchAt (deriv r c) cs

/-- Whether some substring (contiguous, possibly empty) of the list matches;
this models the unanchored test method of a JavaScript RegExp. -/
def searchAll : Reg → List Char → Bool
  | r, [] => nullable r
  | r, c :: cs => searchAt r (c :: cs) || searchAll r cs

/-- The characters treated as syntax in the regex fragment.  This is exactly
the character class escaped by the RegExp.escape polyfill in the source
(line 13 of src/helpers.js). -/
def isMeta (c : Char) : Bool :=
  c = '\\' || c = '^' || c = '$' || c = '*' || c = '+' || c = '?' || c = '.' ||
  c = '(' || c = ')' || c = '|' || c = '[' || c = ']' || c = '\x7b' || c = '\x7d'

/-- One step of the RegExp.escape polyfill: a metacharacter is replaced by a
backslash followed by itself, any other character is kept. -/
def escChar (c : Char) : List Char :=
  if isMeta c then ['\\', c] else [c]

/-- The RegExp.escape polyfill at the character-list level. -/
def escList : List Char → List Char
  | [] => []
  | c :: l => escChar c ++ escList l

/-- Model of the RegExp.escape polyfill of src/helpers.js lines 11-15:
every occurrence of a regex metacharacter is prefixed with a backslash. -/
def escapeRegExp (s : String) : String :=
  String.mk (escList s.data)

/-- Split a pattern source on top-level alternation bars, keeping
backslash-escaped pairs together.  The result is always nonempty. -/
def splitTop : List Char → List (List Char)
  | [] => [[]]
  | c :: rest =>
    if c = '\\' then
      match rest with
      | c2 :: rest2 =>
        match splitTop rest2 with
        | a :: as => ('\\' :: c2 :: a) :: as
        | [] => [['\\', c2]]
      | [] => [['\\']]
    else if c = '|' then [] :: splitTop rest
    else
      match splitTop rest with
      | a :: as => (c :: a) :: as
      | [] => [[c]]

/-- A lexical token of one alternative of a pattern source. -/
inductive Tok : Type
  | lit : Char → Tok
  | dotT : Tok
  | qmark : Tok
  deriving Repr, DecidableEq

/-- Lex one bar-free alternative of a pattern source: a backslash makes the
next character a literal token, an unescaped dot or question mark becomes
the corresponding token, any other unescaped metacharacter is outside the
fragment and rejected, and every remaining character is a literal token. -/
def lexPat : List Char → Option (List Tok)
  | [] => some []
  | c :: rest =>
    if c = '\\' then
      match rest with
      | c2 :: rest2 => (lexPat rest2).map (fun ts => Tok.lit c2 :: ts)
      | [] => none
    else if c = '.' then (lexPat rest).map (fun ts => Tok.dotT :: ts)
    else if c = '?' then (lexPat rest).map (fun ts => Tok.qmark :: ts)
    else if isMeta c then none
    else (lexPat rest).map (fun ts => Tok.lit c :: ts)

/-- Turn a token list into the atoms of a regular expression: a question
mark makes the preceding atom optional, and a leading question mark is
rejected. -/
def toksToReg : List Tok → Option (List Reg)
  | [] => some []
  | Tok.qmark :: _ => none
  | Tok.lit c :: Tok.qmark :: rest =>
    (toksToReg rest).map (fun rs => Reg.opt (Reg.chr c) :: rs)
  | Tok.lit c :: rest => (toksToReg rest).map (fun rs => Reg.chr c :: rs)
  | Tok.dotT :: Tok.qmark :: rest =>
    (toksToReg rest).map (fun rs => Reg.opt Reg.dot :: rs)
  | Tok.dotT :: rest => (toksToReg rest).map (fun rs => Reg.dot :: rs)

/-- Parse one bar-free alternative of a pattern source into its sequence of
atoms. -/
def parseSeq (cs : List Char) : Option (List Reg) :=
  (lexPat cs).bind toksToReg

/-- Concatenate a parsed sequence of atoms into one regular expression. -/
def seqToReg : List Reg → Reg
  | [] => Reg.eps
  | r :: rs => Reg.cat r (seqToReg rs)

/-- Combine alternatives into one regular expression. -/
def altList : List Reg → Reg
  | [] => Reg.void
  | r :: rs => Reg.alt r (altList rs)

/-- Parse every alternative, failing if any fails. -/
def parseAll : List (List Char) → Option (List (List Reg))
  | [] => some []
  | cs :: rest =>
    match parseSeq cs, parseAll rest with
    | some a, some b => some (a :: b)
    | _, _ => none

/-- Parse a bar-separated pattern source (no groups) into a regular
expression. -/
def parseAlts (cs : List Char) : Option Reg :=
  match parseAll (splitTop cs) with
  | some seqs => some (altList (seqs.map seqToReg))
  | none => none

/-- Recognize a pattern source of the shape produced by exactRegExp in the
source, namely a caret, a non-capturing group opener, the inner pattern, a
closing parenthesis and a dollar, and return the inner pattern. -/
def stripExact (cs : List Char) : Option (List Char) :=
  match cs with
  | '^' :: '(' :: '?' :: ':' :: rest =>
    match rest.reverse with
    | '$' :: ')' :: midRev => some midRev.reverse
    | _ => none
  | _ => none

/-- Model of the test method of a JavaScript RegExp built from the given
pattern source, for the fragment generated by the source code: a fully
anchored exactRegExp pattern is a full match of the inner pattern, any
other pattern is an unanchored substring search. -/
def jsTest (src : String) (s : String) : Bool :=
  match stripExact src.data with
  | some inner =>
    match parseAlts inner with
    | some r => rmatch r s.data
    | none => false
  | none =>
    match parseAlts src.data with
    | some r => searchAll r s.data
    | none => false

/-- A JavaScript RegExp object, embedded as the pattern source string it was
constructed from (flags are never used by the source code). -/
structure JSRegExp : Type where
  source : String
  deriving Repr, DecidableEq

/-- The test method of a RegExp object. -/
def JSRegExp.test (r : JSRegExp) (s : String) : Bool :=
  jsTest r.source s

/-- An element of a collection passed to createMatchers: either a plain value
(embedded by its string form, since the source only ever applies toString to
it) or a RegExp instance. -/
inductive MatchItem : Type
  | str : String → MatchItem
  | re : JSRegExp → MatchItem
  deriving Repr, DecidableEq

/-- Whether an item is a RegExp instance (the instanceof RegExp check). -/
def MatchItem.isRe : MatchItem → Bool
  | .str _ => false
  | .re _ => true

/-- Extract the RegExp of an item, if it is one. -/
def MatchItem.reOf : MatchItem → Option JSRegExp
  | .str _ => none
  | .re r => some r

/-- Extract the plain value of an item, if it is one. -/
def MatchItem.strOf : MatchItem → Option String
  | .str s => some s
  | .re _ => none

/-- The loosely-typed specification value accepted by createMatchers and
stringified by cacheKey: undefined, null, a plain string-like value
(embedded by its string form), a RegExp instance, or an array. -/
inductive MatchSpec : Type
  | undef : MatchSpec
  | null : MatchSpec
  | single : String → MatchSpec
  | pattern : JSRegExp → MatchSpec
  | coll : List MatchItem → MatchSpec
  deriving Repr, DecidableEq

/-- JavaScript falsiness of a specification value: undefined and null are
falsy, and so is the empty string; RegExp objects and arrays are truthy. -/
def falsy : MatchSpec → Bool
  | .undef => true
  | .null => true
  | .single s => s = ""
  | .pattern _ => false
  | .coll _ => false

/-- The regex literal matching anything, returned by createMatchers for
falsy input (line 63 of src/helpers.js). -/
def anyRegExp : JSRegExp := ⟨".?"⟩

/-- Model of the local exactRegExp helper (line 65 of src/helpers.js):
wrap a pattern source in a caret-anchored non-capturing group followed by a
dollar anchor. -/
def exactRegExp (pattern : String) : JSRegExp :=
  ⟨"^(?:" ++ pattern ++ ")$"⟩

/-- Model of Array.prototype.join with a bar separator, as used by the local
arrayRegExp helper. -/
def joinBar : List String → String
  | [] => ""
  | [s] => s
  | s :: rest => s ++ "|" ++ joinBar rest

/-- Model of the local arrayRegExp helper (lines 66-70 of src/helpers.js):
escape the string form of each value, join the escaped values with bars and
wrap the result with exactRegExp.  The argument list carries the string
forms of the values, since the source applies toString to each. -/
def arrayRegExp (arr : List String) : JSRegExp :=
  exactRegExp (joinBar (arr.map escapeRegExp))

/-- String form of one array element under Array.prototype.toString:
a plain value is its own string form, and a RegExp stringifies as its
source between slashes. -/
def jsStringOfItem : MatchItem → String
  | .str s => s
  | .re r => "/" ++ r.source ++ "/"

/-- Model of the JavaScript String conversion applied by cacheKey to a
specification value. -/
def jsStringOfSpec : MatchSpec → String
  | .undef => "undefined"
  | .null => "null"
  | .single s => s
  | .pattern r => "/" ++ r.source ++ "/"
  | .coll items => joinComma (items.map jsStringOfItem)
where
  /-- Array.prototype.toString joins the element strings with commas. -/
  joinComma : List String → String
    | [] => ""
    | [s] => s
    | s :: rest => s ++ "," ++ joinComma rest

/-- Model of createMatchers (lines 60-93 of src/helpers.js).  Falsy input
yields the single permissive matcher; a RegExp is wrapped unchanged; an
array with no RegExp element is combined into a single exact alternation
matcher; a mixed array keeps every RegExp element in order (the forEach
partition is rendered with filterMap) and appends one combined matcher for
the plain values when there are any; any other value is treated as a single
plain value. -/
def createMatchers (matchItems : MatchSpec) : List JSRegExp :=
  if falsy matchItems then [anyRegExp]
  else
    match matchItems with
    | .undef => [anyRegExp]
    | .null => [anyRegExp]
    | .pattern r => [r]
    | .coll items =>
      let hasRegExp := items.any MatchItem.isRe
      if !hasRegExp then
        [arrayRegExp (items.map jsStringOfItem)]
      else
        let ret := items.filterMap MatchItem.reOf
        let strings := items.filterMap MatchItem.strOf
        if strings.length ≠ 0 then ret ++ [arrayRegExp strings] else ret
    | .single s => [exactRegExp (escapeRegExp s)]

/-- Model of anyMatch (lines 100-111 of src/helpers.js) when the third
argument is undefined: an absent or empty matcher array counts as matching
everything, and a nonempty array is tested with Array.prototype.some.
The none value of the option stands for an undefined argument. -/
def anyMatchSingle (item : String) (regExpMatchers : Option (List JSRegExp)) : Bool :=
  match regExpMatchers with
  | none => true
  | some ms =>
    if ms.length = 0 then true
    else ms.any fun matcher => matcher.test item

/-- Model of anyMatch with the optional third argument: the recursive calls
of the source with an undefined third argument are rendered by
anyMatchSingle. -/
def anyMatch (item : String) (regExpMatchers : Option (List JSRegExp)) :
    Option (List JSRegExp) → Bool
  | some extra =>
    anyMatchSingle item regExpMatchers && anyMatchSingle item (some extra)
  | none => anyMatchSingle item regExpMatchers

/-- The pluginName constant of src/helpers.js line 8. -/
def pluginName : String := "moment-timezone-data-webpack-plugin"

/-- Hexadecimal digit characters, lower case, as produced by JSON escapes
and by the hex digest encoding. -/
def hexDigit (n : Nat) : Char :=
  if n = 0 then '0' else if n = 1 then '1' else if n = 2 then '2'
  else if n = 3 then '3' else if n = 4 then '4' else if n = 5 then '5'
  else if n = 6 then '6' else if n = 7 then '7' else if n = 8 then '8'
  else if n = 9 then '9' else if n = 10 then 'a' else if n = 11 then 'b'
  else if n = 12 then 'c' else if n = 13 then 'd' else if n = 14 then 'e'
  else 'f'

/-- JSON.stringify escaping of one character inside a string literal. -/
def jsonEscapeChar (c : Char) : List Char :=
  if c = '"' then ['\\', '"']
  else if c = '\\' then ['\\', '\\']
  else if c = '\x08' then ['\\', 'b']
  else if c = '\x09' then ['\\', 't']
  else if c = '\x0a' then ['\\', 'n']
  else if c = '\x0c' then ['\\', 'f']
  else if c = '\x0d' then ['\\', 'r']
  else if c.toNat < 32 then
    ['\\', 'u', '0', '0', hexDigit (c.toNat / 16), hexDigit (c.toNat % 16)]
  else [c]

/-- JSON.stringify rendering of a string value, with surrounding quotes. -/
def jsonStr (s : String) : String :=
  "\"" ++ String.mk (jsonEscList s.data) ++ "\""
where
  jsonEscList : List Char → List Char
    | [] => []
    | c :: l => jsonEscapeChar c ++ jsonEscList l

/-- The tzdata argument of cacheKey; only its version field is read. -/
structure TzData : Type where
  version : String
  deriving Repr, DecidableEq

/-- The plugin configuration fields read by cacheKey. -/
structure Config : Type where
  matchZones : MatchSpec
  matchCountries : MatchSpec
  startYear : Int
  endYear : Int
  deriving Repr, DecidableEq

/-- Model of cacheKey (lines 113-120 of src/helpers.js): JSON.stringify of
an object literal whose fields appear in the fixed source order version,
zones, countries, dates, where the zones and countries fields hold the
String conversions of the two specifications and dates holds the pair of
year bounds. -/
def cacheKey (tzdata : TzData) (config : Config) : String :=
  "\x7b\"version\":" ++ jsonStr tzdata.version ++
  ",\"zones\":" ++ jsonStr (jsStringOfSpec config.matchZones) ++
  ",\"countries\":" ++ jsonStr (jsStringOfSpec config.matchCountries) ++
  ",\"dates\":[" ++ toString config.startYear ++ "," ++
  toString config.endYear ++ "]\x7d"

/-!  MD5, modelling the Node crypto md5 hash used for the cache filename.
The implementation follows RFC 1321 on byte lists, with 32-bit words
represented as natural numbers reduced modulo 2 to the 32. -/

/-- Addition modulo 2 to the 32. -/
def add32 (a b : Nat) : Nat := (a + b) % 4294967296

/-- Bitwise complement within 32 bits. -/
def not32 (x : Nat) : Nat := (x % 4294967296) ^^^ 4294967295

/-- Left rotation of a 32-bit word. -/
def rotl32 (x n : Nat) : Nat :=
  (((x % 4294967296) <<< n) % 4294967296) ||| ((x % 4294967296) >>> (32 - n))

/-- The sixty-four sine-derived round constants of MD5. -/
def md5K : List Nat :=
  [0xd76aa478, 0xe8c7b756, 0x242070db, 0xc1bdceee,
   0xf57c0faf, 0x4787c62a, 0xa8304613, 0xfd469501,
   0x698098d8, 0x8b44f7af, 0xffff5bb1, 0x895cd7be,
   0x6b901122, 0xfd987193, 0xa679438e, 0x49b40821,
   0xf61e2562, 0xc040b340, 0x265e5a51, 0xe9b6c7aa,
   0xd62f105d, 0x02441453, 0xd8a1e681, 0xe7d3fbc8,
   0x21e1cde6, 0xc33707d6, 0xf4d50d87, 0x455a14ed,
   0xa9e3e905, 0xfcefa3f8, 0x676f02d9, 0x8d2a4c8a,
   0xfffa3942, 0x8771f681, 0x6d9d6122, 0xfde5380c,
   0xa4beea44, 0x4bdecfa9, 0xf6bb4b60, 0xbebfbc70,
   0x289b7ec6, 0xeaa127fa, 0xd4ef3085, 0x04881d05,
   0xd9d4d039, 0xe6db99e5, 0x1fa27cf8, 0xc4ac5665,
   0xf4292244, 0x432aff97, 0xab9423a7, 0xfc93a039,
   0x655b59c3, 0x8f0ccc92, 0xffeff47d, 0x85845dd1,
   0x6fa87e4f, 0xfe2ce6e0, 0xa3014314, 0x4e0811a1,
   0xf7537e82, 0xbd3af235, 0x2ad7d2bb, 0xeb86d391]

/-- The per-round left-rotation amounts of MD5. -/
def md5S : List Nat :=
  [7, 12, 17, 22, 7, 12, 17, 22, 7, 12, 17, 22, 7, 12, 17, 22,
   5, 9, 14, 20, 5, 9, 14, 20, 5, 9, 14, 20, 5, 9, 14, 20,
   4, 11, 16, 23, 4, 11, 16, 23, 4, 11, 16, 23, 4, 11, 16, 23,
   6, 10, 15, 21, 6, 10, 15, 21, 6, 10, 15, 21, 6, 10, 15, 21]

/-- The running 128-bit state of MD5, as four 32-bit words. -/
structure MD5State : Type where
  a : Nat
  b : Nat
  c : Nat
  d : Nat

/-- The round mixing function of MD5, chosen by the round index. -/
def md5F (b c d i : Nat) : Nat :=
  if i < 16 then (b &&& c) ||| (not32 b &&& d)
  else if i < 32 then (d &&& b) ||| (not32 d &&& c)
  else if i < 48 then b ^^^ c ^^^ d
  else c ^^^ (b ||| not32 d)

/-- The message-word schedule of MD5. -/
def md5G (i : Nat) : Nat :=
  if i < 16 then i
  else if i < 32 then (5 * i + 1) % 16
  else if i < 48 then (3 * i + 5) % 16
  else (7 * i) % 16

/-- One of the sixty-four rounds of an MD5 chunk computation; the function
mw gives the sixteen little-endian message words of the chunk. -/
def md5Round (mw : Nat → Nat) (st : MD5State) (i : Nat) : MD5State :=
  let f := add32 (add32 (md5F st.b st.c st.d i) st.a)
    (add32 (md5K.getD i 0) (mw (md5G i)))
  ⟨st.d, add32 st.b (rotl32 f (md5S.getD i 0)), st.b, st.c⟩

/-- Process one 64-byte chunk, updating the MD5 state. -/
def md5Chunk (st : MD5State) (chunk : List Nat) : MD5State :=
  let mw := fun j =>
    chunk.getD (4 * j) 0 + 256 * chunk.getD (4 * j + 1) 0 +
    65536 * chunk.getD (4 * j + 2) 0 + 16777216 * chunk.getD (4 * j + 3) 0
  let fin := (List.range 64).foldl (md5Round mw) st
  ⟨add32 st.a fin.a, add32 st.b fin.b, add32 st.c fin.c, add32 st.d fin.d⟩

/-- Process a padded message 64 bytes at a time. -/
def md5Chunks (st : MD5State) (l : List Nat) : MD5State :=
  match l with
  | [] => st
  | c :: cs => md5Chunks (md5Chunk st (c :: cs |>.take 64)) (c :: cs |>.drop 64)
termination_by l.length
decreasing_by simp; omega

/-- RFC 1321 padding: append a 0x80 byte, then zero bytes until the length
is 56 modulo 64, then the bit length as eight little-endian bytes. -/
def md5Pad (msg : List Nat) : List Nat :=
  let padLen := (55 - msg.length % 64 + 64) % 64 + 1
  msg ++ (0x80 :: List.replicate (padLen - 1) 0) ++
    ((List.range 8).map fun i => msg.length * 8 / 256 ^ i % 256)

/-- The four bytes of a 32-bit word in little-endian order. -/
def wordLE (w : Nat) : List Nat :=
  [w % 256, w / 256 % 256, w / 65536 % 256, w / 16777216 % 256]

/-- The sixteen digest bytes of the MD5 of a byte list. -/
def md5Bytes (msg : List Nat) : List Nat :=
  let st := md5Chunks ⟨0x67452301, 0xefcdab89, 0x98badcfe, 0x10325476⟩ (md5Pad msg)
  wordLE st.a ++ wordLE st.b ++ wordLE st.c ++ wordLE st.d

/-- UTF-8 encoding of one character, as used by the Node hash update with
the default encoding. -/
def utf8Char (c : Char) : List Nat :=
  let n := c.toNat
  if n < 128 then [n]
  else if n < 2048 then [192 + n / 64, 128 + n % 64]
  else if n < 65536 then [224 + n / 4096, 128 + n / 64 % 64, 128 + n % 64]
  else [240 + n / 262144, 128 + n / 4096 % 64, 128 + n / 64 % 64, 128 + n % 64]

/-- UTF-8 encoding of a string as a byte list. -/
def utf8Bytes (s : String) : List Nat :=
  utf8List s.data
where
  utf8List : List Char → List Nat
    | [] => []
    | c :: l => utf8Char c ++ utf8List l

/-- Two lowercase hex characters for one byte. -/
def hexByte (b : Nat) : List Char :=
  [hexDigit (b / 16 % 16), hexDigit (b % 16)]

/-- Hex encoding of a byte list. -/
def hexList : List Nat → List Char
  | [] => []
  | b :: l => hexByte b ++ hexList l

/-- Model of the crypto md5 hex digest of a string used on lines 149-151 of
src/helpers.js. -/
def md5hex (s : String) : String :=
  String.mk (hexList (md5Bytes (utf8Bytes s)))

/-- Model of path.join for a directory and a filename. -/
def pathJoin (dir filename : String) : String :=
  dir ++ "/" ++ filename

/-- Model of autoGeneratedCacheDir (lines 122-136 of src/helpers.js).  The
closure variable holding the memoized path is passed and returned
explicitly; the outcome of the external findCacheDir call is passed as an
Except value, whose error case renders a thrown exception caught by the
try block, in which case the fallback path under the system temporary
directory is substituted.  The mkdir call is an external side effect with
no return value and is not modelled. -/
def autoGeneratedCacheDir (memo : Option String)
    (findRes : Except Unit String) (tmpdir : String) : String × Option String :=
  let cacheDirPath :=
    match memo with
    | some p => p
    | none =>
      match findRes with
      | .ok p => p
      | .error _ => pathJoin tmpdir pluginName
  (cacheDirPath, some cacheDirPath)

/-- Model of cacheDir (lines 138-145 of src/helpers.js): an explicitly
supplied truthy path is used directly (none renders an undefined argument),
otherwise the memoized auto-generated directory is used. -/
def cacheDir (cacheDirPath : Option String) (memo : Option String)
    (findRes : Except Unit String) (tmpdir : String) : String × Option String :=
  match cacheDirPath with
  | some p => (p, memo)
  | none => autoGeneratedCacheDir memo findRes tmpdir

/-- The descriptor returned by cacheFile. -/
structure CacheDescriptor : Type where
  path : String
  fileExists : Bool
  deriving Repr, DecidableEq

/-- Model of cacheFile (lines 147-157 of src/helpers.js): the cache key is
hashed with md5 and hex-encoded, the json extension is appended, the result
is joined onto the resolved cache directory, and the existence flag is the
synchronous filesystem check at that exact path, modelled by the function
fsExistsSync.  The memo state of the auto-generated directory is threaded
through and returned. -/
def cacheFile (tzdata : TzData) (config : Config) (cacheDirPath : Option String)
    (memo : Option String) (findRes : Except Unit String) (tmpdir : String)
    (fsExistsSync : String → Bool) : CacheDescriptor × Option String :=
  let key := cacheKey tzdata config
  let filename := md5hex key ++ ".json"
  let dirState := cacheDir cacheDirPath memo findRes tmpdir
  let filepath := pathJoin dirState.1 filename
  (⟨filepath, fsExistsSync filepath⟩, dirState.2)

/-- A file-existence oracle reporting no file present, used to instantiate
the filesystem check in concrete examples. -/
def noFile : String → Bool := fun _ => false

/-!  Basic facts about the derivative matcher. -/

theorem rmatch_void (cs : List Char) : rmatch Reg.void cs = false := by
  induction cs with
  | nil => rfl
  | cons c cs ih => simpa [rmatch, deriv] using ih

theorem rmatch_eps (cs : List Char) : rmatch Reg.eps cs = decide (cs = []) := by
  cases cs with
  | nil => rfl
  | cons c cs => simp [rmatch, deriv, rmatch_void]

theorem rmatch_alt (a b : Reg) (cs : List Char) :
    rmatch (Reg.alt a b) cs = (rmatch a cs || rmatch b cs) := by
  induction cs generalizing a b with
  | nil => rfl
  | cons c cs ih => simpa [rmatch, deriv] using ih (deriv a c) (deriv b c)

theorem rmatch_cat_void (r : Reg) (cs : List Char) :
    rmatch (Reg.cat Reg.void r) cs = false := by
  induction cs generalizing r with
  | nil => simp [rmatch, nullable]
  | cons c cs ih => simpa [rmatch, deriv, nullable] using ih r

theorem rmatch_cat_eps (r : Reg) (cs : List Char) :
    rmatch (Reg.cat Reg.eps r) cs = rmatch r cs := by
  cases cs with
  | nil => simp [rmatch, nullable]
  | cons c cs =>
    show rmatch (deriv (Reg.cat Reg.eps r) c) cs = rmatch (deriv r c) cs
    simp [deriv, nullable, rmatch_alt, rmatch_cat_void]

theorem rmatch_cat_chr (a : Char) (r : Reg) (cs : List Char) :
    rmatch (Reg.cat (Reg.chr a) r) cs =
      match cs with
      | [] => false
      | b :: bs => decide (b = a) && rmatch r bs := by
  cases cs with
  | nil => simp [rmatch, nullable]
  | cons b bs =>
    show rmatch (deriv (Reg.cat (Reg.chr a) r) b) bs = _
    by_cases hb : b = a
    · subst hb
      simp [deriv, nullable, rmatch_cat_eps]
    · simp [deriv, nullable, hb, rmatch_cat_void]

/-- The concatenation of literal atoms matches exactly the literal. -/
theorem rmatch_lit (l cs : List Char) :
    rmatch (seqToReg (l.map Reg.chr)) cs = decide (cs = l) := by
  induction l generalizing cs with
  | nil => simpa [seqToReg] using rmatch_eps cs
  | cons a l ih =>
    rw [List.map_cons]
    show rmatch (Reg.cat (Reg.chr a) (seqToReg (l.map Reg.chr))) cs = _
    rw [rmatch_cat_chr]
    cases cs with
    | nil => simp
    | cons b bs =>
      by_cases hb : b = a
      · subst hb; simp [ih bs]
      · simp [hb]

/-- Matching an alternation list is matching some alternative. -/
theorem rmatch_altList (rs : List Reg) (cs : List Char) :
    rmatch (altList rs) cs = rs.any (fun r => rmatch r cs) := by
  induction rs with
  | nil => simpa [altList] using rmatch_void cs
  | cons r rs ih => simp [altList, rmatch_alt, ih]

/-- A nullable regular expression is found by unanchored search in any
string. -/
theorem searchAll_of_nullable (r : Reg) (h : nullable r = true) (cs : List Char) :
    searchAll r cs = true := by
  cases cs with
  | nil => simpa [searchAll]
  | cons c cs => simp [searchAll, searchAt, h]

/-!  The escaped form of a string lexes back to its literal tokens, splits
on no bar, and therefore matches exactly the original string. -/

/-- Break an isMeta fact into its component disequalities. -/
theorem isMeta_false_iff (c : Char) :
    isMeta c = false ↔
      c ≠ '\\' ∧ c ≠ '^' ∧ c ≠ '$' ∧ c ≠ '*' ∧ c ≠ '+' ∧ c ≠ '?' ∧ c ≠ '.' ∧
      c ≠ '(' ∧ c ≠ ')' ∧ c ≠ '|' ∧ c ≠ '[' ∧ c ≠ ']' ∧ c ≠ '\x7b' ∧ c ≠ '\x7d' := by
  simp [isMeta, and_assoc]

theorem lexPat_escList (l : List Char) :
    lexPat (escList l) = some (l.map Tok.lit) := by
  induction l with
  | nil => rfl
  | cons c l ih =>
    by_cases hm : isMeta c
    · rw [show escList (c :: l) = '\\' :: c :: escList l by simp [escList, escChar, hm]]
      rw [lexPat.eq_def]
      simp [ih]
    · obtain ⟨h1, _, _, _, _, h6, h7, _⟩ := (isMeta_false_iff c).mp (by simpa using hm)
      rw [show escList (c :: l) = c :: escList l by simp [escList, escChar, hm]]
      rw [lexPat.eq_def]
      simp [h1, h6, h7, hm, ih]

theorem toksToReg_lits (l : List Char) :
    toksToReg (l.map Tok.lit) = some (l.map Reg.chr) := by
  induction l with
  | nil => rfl
  | cons c l ih =>
    cases l with
    | nil => rfl
    | cons c2 l2 =>
      simp only [List.map_cons] at ih ⊢
      rw [toksToReg.eq_def]
      simp [ih]

theorem parseSeq_escList (l : List Char) :
    parseSeq (escList l) = some (l.map Reg.chr) := by
  simp [parseSeq, lexPat_escList, toksToReg_lits]

theorem splitTop_escList_append (l cs : List Char) (a : List Char)
    (as : List (List Char)) (h : splitTop cs = a :: as) :
    splitTop (escList l ++ cs) = (escList l ++ a) :: as := by
  induction l with
  | nil => simpa [escList]
  | cons c l ih =>
    by_cases hm : isMeta c
    · rw [show escList (c :: l) ++ cs = '\\' :: c :: (escList l ++ cs) by
        simp [escList, escChar, hm]]
      rw [splitTop.eq_def]
      simp [ih, escList, escChar, hm]
    · obtain ⟨h1, _, _, _, _, _, _, _, _, h10, _⟩ :=
        (isMeta_false_iff c).mp (by simpa using hm)
      rw [show escList (c :: l) ++ cs = c :: (escList l ++ cs) by
        simp [escList, escChar, hm]]
      rw [splitTop.eq_def]
      simp [h1, h10, ih, escList, escChar, hm]

/-- Joining escaped alternatives at the character level. -/
def interBar : List (List Char) → List Char
  | [] => []
  | [l] => l
  | l :: rest => l ++ '|' :: interBar rest

theorem escapeRegExp_data (s : String) : (escapeRegExp s).data = escList s.data := rfl

theorem joinBar_data (L : List String) :
    (joinBar (L.map escapeRegExp)).data =
      interBar (L.map fun s => escList s.data) := by
  induction L with
  | nil => rfl
  | cons s L ih =>
    cases L with
    | nil => rfl
    | cons s2 L2 =>
      simp only [List.map_cons] at ih
      simp only [List.map_cons, joinBar, interBar, String.data_append,
        escapeRegExp_data, ih, List.append_assoc, List.singleton_append]

theorem splitTop_interBar (L : List String) (hL : L ≠ []) :
    splitTop (interBar (L.map fun s => escList s.data)) =
      L.map fun s => escList s.data := by
  induction L with
  | nil => exact absurd rfl hL
  | cons s L ih =>
    cases L with
    | nil =>
      have h := splitTop_escList_append s.data [] [] [] rfl
      simpa using h
    | cons s2 L2 =>
      have hrec := ih (by simp)
      simp only [List.map_cons, interBar]
      have hbar : splitTop ('|' :: interBar ((s2 :: L2).map fun s => escList s.data)) =
          [] :: ((s2 :: L2).map fun s => escList s.data) := by
        rw [splitTop.eq_def]
        simp only [List.map_cons] at hrec
        simp [hrec]
      have h := splitTop_escList_append s.data
        ('|' :: interBar ((s2 :: L2).map fun s => escList s.data)) []
        ((s2 :: L2).map fun s => escList s.data) hbar
      simpa using h

/-!  Semantics of the generated matchers. -/

theorem parseAll_escLists (L : List String) :
    parseAll (L.map fun s => escList s.data) =
      some (L.map fun s => s.data.map Reg.chr) := by
  induction L with
  | nil => rfl
  | cons s L ih => simp [parseAll, parseSeq_escList, ih]

theorem exactRegExp_source_data (p : String) :
    (exactRegExp p).source.data = '^' :: '(' :: '?' :: ':' :: (p.data ++ [')', '$']) := by
  show ("^(?:" ++ p ++ ")$").data = _
  rw [String.data_append, String.data_append]
  rfl

theorem stripExact_exact (p : String) :
    stripExact (exactRegExp p).source.data = some p.data := by
  rw [exactRegExp_source_data]
  simp [stripExact, List.reverse_append]

/-- Membership as an any-fold over string equality. -/
theorem any_decide_mem (c : String) (L : List String) :
    (L.any fun s => decide (c = s)) = decide (c ∈ L) := by
  induction L with
  | nil => simp
  | cons s L ih => simp [List.any_cons, ih, List.mem_cons]

/-- The alternation of the literal regular expressions of a string list
matches exactly the members of the list. -/
theorem altList_lits_rmatch (L : List String) (c : String) :
    rmatch (altList ((L.map fun s => s.data.map Reg.chr).map seqToReg)) c.data =
      decide (c ∈ L) := by
  induction L with
  | nil => simpa [altList] using rmatch_void c.data
  | cons s L ih =>
    simp only [List.map_cons, altList]
    rw [rmatch_alt, rmatch_lit, ih]
    simp [List.mem_cons, ← String.ext_iff]

/-- The combined matcher built by arrayRegExp from a nonempty value list
matches exactly the listed values. -/
theorem arrayRegExp_test (L : List String) (hL : L ≠ []) (c : String) :
    (arrayRegExp L).test c = decide (c ∈ L) := by
  have hparse : parseAlts (joinBar (L.map escapeRegExp)).data =
      some (altList ((L.map fun s => s.data.map Reg.chr).map seqToReg)) := by
    simp [parseAlts, joinBar_data, splitTop_interBar L hL, parseAll_escLists]
  show jsTest (exactRegExp (joinBar (L.map escapeRegExp))).source c = _
  simp only [jsTest, stripExact_exact, hparse]
  exact altList_lits_rmatch L c

/-- The single anchored matcher built for one plain value matches exactly
that value. -/
theorem exactRegExp_escape_test (s c : String) :
    (exactRegExp (escapeRegExp s)).test c = decide (c = s) := by
  have h := arrayRegExp_test [s] (by simp) c
  simpa using h

/-- The combined matcher built from an empty value list matches only the
empty string. -/
theorem arrayRegExp_nil_test (c : String) :
    (arrayRegExp []).test c = decide (c = "") := by
  have hparse : parseAlts ("" : String).data =
      some (altList [seqToReg []]) := rfl
  show jsTest (exactRegExp "").source c = _
  simp only [jsTest, stripExact_exact, hparse]
  show rmatch (Reg.alt Reg.eps Reg.void) c.data = _
  rw [rmatch_alt, rmatch_eps, rmatch_void]
  simp [String.ext_iff]

/-- The permissive matcher returned for falsy input matches every string. -/
theorem anyRegExp_test (s : String) : anyRegExp.test s = true := by
  have hstrip : stripExact (".?" : String).data = none := rfl
  have hp : parseAlts (".?" : String).data =
      some (altList [seqToReg [Reg.opt Reg.dot]]) := rfl
  show jsTest ".?" s = true
  simp only [jsTest, hstrip, hp]
  apply searchAll_of_nullable
  rfl

/-!  Structural facts about collections without RegExp elements and about
the digest length. -/

theorem reOf_of_no_re (items : List MatchItem)
    (h : items.any MatchItem.isRe = false) :
    items.filterMap MatchItem.reOf = [] := by
  induction items with
  | nil => rfl
  | cons it items ih =>
    cases it with
    | str s =>
      simp only [List.any_cons, MatchItem.isRe, Bool.false_or] at h
      simp [List.filterMap_cons, MatchItem.reOf, ih h]
    | re r => simp [List.any_cons, MatchItem.isRe] at h

theorem strOf_of_no_re (items : List MatchItem)
    (h : items.any MatchItem.isRe = false) :
    items.filterMap MatchItem.strOf = items.map jsStringOfItem := by
  induction items with
  | nil => rfl
  | cons it items ih =>
    cases it with
    | str s =>
      simp only [List.any_cons, MatchItem.isRe, Bool.false_or] at h
      simp [List.filterMap_cons, MatchItem.strOf, jsStringOfItem, ih h]
    | re r => simp [List.any_cons, MatchItem.isRe] at h

theorem hexList_length (l : List Nat) : (hexList l).length = 2 * l.length := by
  induction l with
  | nil => rfl
  | cons b l ih => simp [hexList, hexByte, ih]; omega

theorem md5Bytes_length (m : List Nat) : (md5Bytes m).length = 16 := by
  simp [md5Bytes, wordLE]

theorem md5hex_length (s : String) : (md5hex s).length = 32 := by
  simp [md5hex, String.length_mk, hexList_length, md5Bytes_length]

/-!  Claim theorems. -/

/-- C1, counterexample: for the empty collection, createMatchers does not
return an empty matcher set; it returns a set of exactly one matcher. -/
theorem createMatchers_empty_coll_not_empty :
    createMatchers (MatchSpec.coll []) ≠ [] ∧
    (createMatchers (MatchSpec.coll [])).length = 1 := by
  decide

/-- C1, amended: for the empty collection, createMatchers returns a
one-element matcher set containing the combined anchored matcher built from
zero values, whose pattern source is the anchored empty alternation and
which matches only the empty string. -/
theorem createMatchers_empty_coll (c : String) :
    createMatchers (MatchSpec.coll []) = [arrayRegExp []] ∧
    (arrayRegExp []).source = "^(?:)$" ∧
    (arrayRegExp []).test c = decide (c = "") :=
  ⟨rfl, by decide, arrayRegExp_nil_test c⟩

/-- C2: with only a primary set, anyMatch is true for an absent set and for
an empty set, and otherwise true exactly when some matcher in the set
matches the candidate; with a secondary set, anyMatch is the conjunction of
the two single-set evaluations. -/
theorem anyMatch_spec (item : String) (ms ex : List JSRegExp)
    (p : Option (List JSRegExp)) :
    anyMatch item none none = true ∧
    anyMatch item (some []) none = true ∧
    (ms ≠ [] → anyMatch item (some ms) none = ms.any fun m => m.test item) ∧
    anyMatch item p (some ex) =
      (anyMatch item p none && anyMatch item (some ex) none) := by
  refine ⟨rfl, rfl, ?_, rfl⟩
  intro h
  simp [anyMatch, anyMatchSingle, List.length_eq_zero, h]

/-- C2, witness at a concrete matcher set and candidate. -/
theorem anyMatch_spec_witness :
    anyMatch "UTC" (some [arrayRegExp ["UTC", "GMT"]]) none =
      [arrayRegExp ["UTC", "GMT"]].any fun m => m.test "UTC" :=
  (anyMatch_spec "UTC" [arrayRegExp ["UTC", "GMT"]] [] none).2.2.1 (by decide)

/-- C4: a nonempty collection compiles to its RegExp elements, unchanged
and in insertion order, followed by the single combined matcher of the
plain values exactly when plain values are present, so the number of
matchers is the number of RegExp elements plus one when a plain value
exists and plus zero otherwise. -/
theorem createMatchers_collection (items : List MatchItem) (h : items ≠ []) :
    createMatchers (MatchSpec.coll items) =
      items.filterMap MatchItem.reOf ++
        (if items.filterMap MatchItem.strOf = [] then []
         else [arrayRegExp (items.filterMap MatchItem.strOf)]) ∧
    (createMatchers (MatchSpec.coll items)).length =
      (items.filterMap MatchItem.reOf).length +
        (if items.filterMap MatchItem.strOf = [] then 0 else 1) := by
  have hmain : createMatchers (MatchSpec.coll items) =
      items.filterMap MatchItem.reOf ++
        (if items.filterMap MatchItem.strOf = [] then []
         else [arrayRegExp (items.filterMap MatchItem.strOf)]) := by
    by_cases hre : items.any MatchItem.isRe
    · by_cases hs : items.filterMap MatchItem.strOf = []
      · simp [createMatchers, falsy, hre, hs]
      · simp [createMatchers, falsy, hre, hs, List.length_eq_zero]
    · have hre' : items.any MatchItem.isRe = false := by simpa using hre
      have h1 := reOf_of_no_re items hre'
      have h2 := strOf_of_no_re items hre'
      have hne : items.map jsStringOfItem ≠ [] := by
        simpa [List.map_eq_nil_iff] using h
      simp [createMatchers, falsy, hre', h1, h2, hne]
  refine ⟨hmain, ?_⟩
  rw [hmain]
  by_cases hs : items.filterMap MatchItem.strOf = [] <;> simp [hs]

/-- C4, witness at the mixed collection of one RegExp and one plain value:
exactly two matchers, the RegExp kept unchanged first. -/
theorem createMatchers_collection_witness :
    createMatchers (MatchSpec.coll [MatchItem.re ⟨"^Europe/"⟩, MatchItem.str "UTC"]) =
      [⟨"^Europe/"⟩, arrayRegExp ["UTC"]] ∧
    (createMatchers
      (MatchSpec.coll [MatchItem.re ⟨"^Europe/"⟩, MatchItem.str "UTC"])).length = 2 := by
  have h := createMatchers_collection
    [MatchItem.re ⟨"^Europe/"⟩, MatchItem.str "UTC"] (by decide)
  refine ⟨?_, ?_⟩
  · rw [h.1]; decide
  · rw [h.2]; decide

/-- C5: a truthy single plain value compiles to the one-element set holding
the anchored exact matcher over the escaped value, whose source is the
anchored wrapping of the escaped string and which matches exactly the
original value. -/
theorem createMatchers_single (s : String) (hs : s ≠ "") (c : String) :
    createMatchers (MatchSpec.single s) = [exactRegExp (escapeRegExp s)] ∧
    (exactRegExp (escapeRegExp s)).source = "^(?:" ++ escapeRegExp s ++ ")$" ∧
    (exactRegExp (escapeRegExp s)).test c = decide (c = s) := by
  refine ⟨?_, rfl, exactRegExp_escape_test s c⟩
  simp [createMatchers, falsy, hs]

/-- C5, witness: the matcher compiled from the value a.b matches that value
and rejects axb. -/
theorem createMatchers_single_witness :
    createMatchers (MatchSpec.single "a.b") = [exactRegExp (escapeRegExp "a.b")] ∧
    (exactRegExp (escapeRegExp "a.b")).test "a.b" = true ∧
    (exactRegExp (escapeRegExp "a.b")).test "axb" = false := by
  refine ⟨(createMatchers_single "a.b" (by decide) "a.b").1, ?_, ?_⟩
  · rw [(createMatchers_single "a.b" (by decide) "a.b").2.2]; decide
  · rw [(createMatchers_single "a.b" (by decide) "axb").2.2]; decide

/-- C6: a nonempty all-plain collection compiles to exactly one combined
anchored matcher, which matches exactly the listed values. -/
theorem createMatchers_plain_array (L : List String) (hL : L ≠ []) (c : String) :
    createMatchers (MatchSpec.coll (L.map MatchItem.str)) = [arrayRegExp L] ∧
    (arrayRegExp L).test c = decide (c ∈ L) := by
  refine ⟨?_, arrayRegExp_test L hL c⟩
  have hre : (L.map MatchItem.str).any MatchItem.isRe = false := by
    simp [List.any_map, MatchItem.isRe, Function.comp]
  have hmap : (L.map MatchItem.str).map jsStringOfItem = L := by
    rw [List.map_map]
    have hid : jsStringOfItem ∘ MatchItem.str = id := funext fun s => rfl
    rw [hid, List.map_id]
  simp [createMatchers, falsy, hre, hmap]

/-- C6, witness: the three-value collection compiles to one matcher which
accepts the three values and rejects their concatenation and the empty
string. -/
theorem createMatchers_plain_array_witness :
    createMatchers (MatchSpec.coll (["a", "b", "c"].map MatchItem.str)) =
      [arrayRegExp ["a", "b", "c"]] ∧
    (arrayRegExp ["a", "b", "c"]).test "a" = true ∧
    (arrayRegExp ["a", "b", "c"]).test "b" = true ∧
    (arrayRegExp ["a", "b", "c"]).test "c" = true ∧
    (arrayRegExp ["a", "b", "c"]).test "ab" = false ∧
    (arrayRegExp ["a", "b", "c"]).test "" = false := by
  refine ⟨(createMatchers_plain_array ["a", "b", "c"] (by decide) "a").1, ?_, ?_, ?_, ?_, ?_⟩
  · rw [(createMatchers_plain_array ["a", "b", "c"] (by decide) "a").2]; decide
  · rw [(createMatchers_plain_array ["a", "b", "c"] (by decide) "b").2]; decide
  · rw [(createMatchers_plain_array ["a", "b", "c"] (by decide) "c").2]; decide
  · rw [(createMatchers_plain_array ["a", "b", "c"] (by decide) "ab").2]; decide
  · rw [(createMatchers_plain_array ["a", "b", "c"] (by decide) "").2]; decide

/-- C7: an absent specification, whether undefined or null, compiles to a
set of exactly one matcher, and that matcher accepts every string. -/
theorem createMatchers_absent (s : String) :
    createMatchers MatchSpec.undef = [anyRegExp] ∧
    createMatchers MatchSpec.null = [anyRegExp] ∧
    (createMatchers MatchSpec.undef).length = 1 ∧
    (createMatchers MatchSpec.null).length = 1 ∧
    anyRegExp.test s = true :=
  ⟨rfl, rfl, rfl, rfl, anyRegExp_test s⟩

/-- The path of a cacheFile descriptor, unfolded. -/
theorem cacheFile_path_eq (tzdata : TzData) (config : Config)
    (dir memo : Option String) (findRes : Except Unit String) (tmpdir : String)
    (fs : String → Bool) :
    (cacheFile tzdata config dir memo findRes tmpdir fs).1.path =
      pathJoin (cacheDir dir memo findRes tmpdir).1
        (md5hex (cacheKey tzdata config) ++ ".json") := rfl

/-- C3: for a fixed version tag, two configurations whose four serialized
fields have identical string forms produce the same cache key, and hence
the same resolved cache file path, whatever the surrounding resolver
state. -/
theorem cacheKey_deterministic (tzdata : TzData) (c1 c2 : Config)
    (dir memo : Option String) (findRes : Except Unit String) (tmpdir : String)
    (fs : String → Bool)
    (hz : jsStringOfSpec c1.matchZones = jsStringOfSpec c2.matchZones)
    (hc : jsStringOfSpec c1.matchCountries = jsStringOfSpec c2.matchCountries)
    (hs : toString c1.startYear = toString c2.startYear)
    (he : toString c1.endYear = toString c2.endYear) :
    cacheKey tzdata c1 = cacheKey tzdata c2 ∧
    (cacheFile tzdata c1 dir memo findRes tmpdir fs).1.path =
      (cacheFile tzdata c2 dir memo findRes tmpdir fs).1.path := by
  have hk : cacheKey tzdata c1 = cacheKey tzdata c2 := by
    unfold cacheKey
    rw [hz, hc, hs, he]
  refine ⟨hk, ?_⟩
  rw [cacheFile_path_eq, cacheFile_path_eq, hk]

/-- C3, witness: two differently built configurations with identical string
forms of every field resolve to the same key and path. -/
theorem cacheKey_deterministic_witness :
    cacheKey ⟨"2023a"⟩
        ⟨MatchSpec.coll [MatchItem.str "Europe/London"], MatchSpec.undef, 2020, 2030⟩ =
      cacheKey ⟨"2023a"⟩
        ⟨MatchSpec.single "Europe/London", MatchSpec.undef, 2020, 2030⟩ ∧
    (cacheFile ⟨"2023a"⟩
        ⟨MatchSpec.coll [MatchItem.str "Europe/London"], MatchSpec.undef, 2020, 2030⟩
        none none (Except.ok "/cache") "/tmp" noFile).1.path =
      (cacheFile ⟨"2023a"⟩
        ⟨MatchSpec.single "Europe/London", MatchSpec.undef, 2020, 2030⟩
        none none (Except.ok "/cache") "/tmp" noFile).1.path :=
  cacheKey_deterministic ⟨"2023a"⟩
    ⟨MatchSpec.coll [MatchItem.str "Europe/London"], MatchSpec.undef, 2020, 2030⟩
    ⟨MatchSpec.single "Europe/London", MatchSpec.undef, 2020, 2030⟩
    none none (Except.ok "/cache") "/tmp" noFile
    (by decide) (by decide) (by decide) (by decide)

/-- C8: the resolved descriptor path is the cache directory joined with a
filename whose stem is the hex md5 digest of the cache key (32 hex
characters, 128 bits) and whose extension is json, and the existence flag
is the filesystem check applied to exactly that path. -/
theorem cacheFile_structure (tzdata : TzData) (config : Config)
    (dir memo : Option String) (findRes : Except Unit String) (tmpdir : String)
    (fs : String → Bool) :
    (cacheFile tzdata config dir memo findRes tmpdir fs).1.path =
      pathJoin (cacheDir dir memo findRes tmpdir).1
        (md5hex (cacheKey tzdata config) ++ ".json") ∧
    (md5hex (cacheKey tzdata config)).length = 32 ∧
    (cacheFile tzdata config dir memo findRes tmpdir fs).1.fileExists =
      fs ((cacheFile tzdata config dir memo findRes tmpdir fs).1.path) :=
  ⟨rfl, md5hex_length _, rfl⟩

/-- C9: with no override and a failing default-directory mechanism, the
resolver substitutes the fallback directory under the temporary directory
without failing, memoizes it, and resolution proceeds to a path under that
fallback. -/
theorem cacheDir_fallback (tzdata : TzData) (config : Config) (tmpdir : String)
    (fs : String → Bool) :
    (cacheDir none none (Except.error ()) tmpdir).1 = pathJoin tmpdir pluginName ∧
    (cacheDir none none (Except.error ()) tmpdir).2 =
      some (pathJoin tmpdir pluginName) ∧
    (cacheFile tzdata config none none (Except.error ()) tmpdir fs).1.path =
      pathJoin (pathJoin tmpdir pluginName)
        (md5hex (cacheKey tzdata config) ++ ".json") :=
  ⟨rfl, rfl, rfl⟩

/-- C10: two distinct configurations, one whose zone array holds the single
value a comma b and one whose zone array holds the two values a and b,
stringify identically under the comma join and therefore share the cache
key and the resolved cache path. -/
theorem cacheKey_collision :
    (⟨MatchSpec.coll [MatchItem.str "a,b"], MatchSpec.undef, 1900, 2030⟩ : Config) ≠
      ⟨MatchSpec.coll [MatchItem.str "a", MatchItem.str "b"], MatchSpec.undef,
        1900, 2030⟩ ∧
    cacheKey ⟨"2023a"⟩
        ⟨MatchSpec.coll [MatchItem.str "a,b"], MatchSpec.undef, 1900, 2030⟩ =
      cacheKey ⟨"2023a"⟩
        ⟨MatchSpec.coll [MatchItem.str "a", MatchItem.str "b"], MatchSpec.undef,
          1900, 2030⟩ ∧
    (cacheFile ⟨"2023a"⟩
        ⟨MatchSpec.coll [MatchItem.str "a,b"], MatchSpec.undef, 1900, 2030⟩
        none none (Except.ok "/cache") "/tmp" noFile).1.path =
      (cacheFile ⟨"2023a"⟩
        ⟨MatchSpec.coll [MatchItem.str "a", MatchItem.str "b"], MatchSpec.undef,
          1900, 2030⟩
        none none (Except.ok "/cache") "/tmp" noFile).1.path := by
  have hk : cacheKey ⟨"2023a"⟩
      ⟨MatchSpec.coll [MatchItem.str "a,b"], MatchSpec.undef, 1900, 2030⟩ =
      cacheKey ⟨"2023a"⟩
        ⟨MatchSpec.coll [MatchItem.str "a", MatchItem.str "b"], MatchSpec.undef,
          1900, 2030⟩ := by decide
  refine ⟨by decide, hk, ?_⟩
  rw [cacheFile_path_eq, cacheFile_path_eq, hk]

end Helpers
